import Mathlib

/-!
Verification of the 15-puzzle state-transition engine (src/main.cpp).

Shallow embedding conventions:
* a tile label (C++ std::string, either a decimal numeral or the empty
  string) is modelled as Option Nat: none is the empty cell, some n the
  numeral of n;
* C++ int indices are modelled as Int where the source really works with
  ints (adjacent, Move indices, findEmpty sentinel -1), with Int.tdiv and
  Int.tmod for the C truncated division and remainder;
* the process-wide random generator is modelled by explicit parameters:
  the successive outputs of shuffleLabels (std::shuffle) become a list of
  draws, and the uniform pick of shuffledNearWin becomes a Nat parameter;
* the do-while loop of shuffledSolvable becomes a recursion over the list
  of draws returning none when the modelled draws are exhausted
  (divergence);
* raw vector indexing (undefined behaviour when out of range) is getD in
  the main definitions; separate checked variants return none / .error ()
  on any out-of-range access and are proved to agree under the length
  invariant.
-/

namespace FifteenPuzzle

namespace Config

/-- Config::grid (src/main.cpp line 17). -/
def grid : Nat := 4

/-- Config::tileCount (line 18). -/
def tileCount : Nat := grid * grid

/-- Config::emptyIndex (line 19): the last cell. -/
def emptyIndex : Nat := tileCount - 1

end Config

/-- A tile label: none is the empty cell, some n the numeral label n. -/
abbrev Label := Option Nat

/-- indexRow (line 28): i / Config::grid with C int division. -/
def indexRow (i : Int) : Int := Int.tdiv i (Config.grid : Int)

/-- indexCol (line 29): i % Config::grid with C int remainder. -/
def indexCol (i : Int) : Int := Int.tmod i (Config.grid : Int)

/-- adjacent (lines 31-35): same row at column distance 1, or same column
at row distance 1. -/
def adjacent (i j : Int) : Bool :=
  decide ((indexRow i = indexRow j ∧ (indexCol i - indexCol j).natAbs = 1) ∨
          (indexCol i = indexCol j ∧ (indexRow i - indexRow j).natAbs = 1))

/-- Position of the first empty label, if any (helper for findEmpty). -/
def findEmptyN : List Label → Option Nat
  | [] => none
  | t :: rest => if t = none then some 0 else (findEmptyN rest).map (· + 1)

/-- findEmpty (lines 37-40): index of the first empty label, -1 if none. -/
def findEmpty (tiles : List Label) : Int :=
  match findEmptyN tiles with
  | some k => (k : Int)
  | none => -1

/-- Loop of isSolved (lines 42-47): from position i with k positions left
to check, every checked cell must hold its own 1-based numeral, and the
last cell must be empty. -/
def solvedCheck (tiles : List Label) : Nat → Nat → Bool
  | _, 0 => decide (tiles.getD (Config.tileCount - 1) none = none)
  | i, k + 1 =>
      decide (tiles.getD i none = some (i + 1)) && solvedCheck tiles (i + 1) k

/-- isSolved (lines 42-47). -/
def isSolved (tiles : List Label) : Bool :=
  solvedCheck tiles 0 (Config.tileCount - 1)

/-- inversionCount (lines 50-58): pairs i < j with values[i] > values[j]. -/
def inversionCount : List Nat → Nat
  | [] => 0
  | v :: rest => rest.countP (fun w => decide (w < v)) + inversionCount rest

/-- The sequence of reads the isSolvable loop performs: index i paired
with the label read at i, for i in 0..tileCount-1 (lines 64-71). -/
def solvableReads (labels : List Label) : List (Nat × Label) :=
  (List.range Config.tileCount).map (fun i => (i, labels.getD i none))

/-- Accumulation of emptyRowFromBottom over the loop (lines 63-67): each
empty cell met overwrites the accumulator with grid - rowOf(i), starting
from 0. -/
def emptyRowFromBottom (labels : List Label) : Int :=
  (solvableReads labels).foldl
    (fun acc p =>
      if p.2 = none then (Config.grid : Int) - indexRow (p.1 : Int) else acc) 0

/-- Accumulation of vals over the loop (lines 62-70): the non-empty
labels in reading order. -/
def solvableVals (labels : List Label) : List Nat :=
  (solvableReads labels).filterMap (fun p => p.2)

/-- Final verdict of isSolvable (lines 72-82). -/
def solvableVerdict (vals : List Nat) (erfb : Int) : Bool :=
  if Config.grid % 2 = 1 then decide (inversionCount vals % 2 = 0)
  else if erfb % 2 = 0 then decide (inversionCount vals % 2 = 1)
  else decide (inversionCount vals % 2 = 0)

/-- isSolvable (lines 61-83). -/
def isSolvable (labels : List Label) : Bool :=
  solvableVerdict (solvableVals labels) (emptyRowFromBottom labels)

/-- solvedTiles (lines 85-95): row-major 1..15 with the empty cell last. -/
def solvedTiles : List Label :=
  (List.range Config.grid).flatMap (fun r =>
    (List.range Config.grid).map (fun c =>
      if r = Config.grid - 1 ∧ c = Config.grid - 1 then none
      else some (r * Config.grid + c + 1)))

/-- std::swap of tiles[i] and tiles[j] (line 160 and line 119). -/
def swapTiles (tiles : List Label) (i j : Nat) : List Label :=
  (tiles.set i (tiles.getD j none)).set j (tiles.getD i none)

/-- shuffledSolvable (lines 101-106), the do-while loop made explicit:
draws is the stream of successive shuffleLabels outputs; the first draw
that is solvable and not solved is returned; none when the modelled draws
run out (the loop has not yet terminated). -/
def shuffledSolvableLoop : List (List Label) → Option (List Label)
  | [] => none
  | d :: rest =>
      if isSolvable d = true ∧ isSolved d = false then some d
      else shuffledSolvableLoop rest

/-- Candidate moves of shuffledNearWin (lines 110-114): the indices of
the solved board that are adjacent to its empty cell. -/
def nearWinMoves : List Nat :=
  (List.range solvedTiles.length).filter
    (fun (i : Nat) => adjacent (i : Int) (findEmpty solvedTiles))

/-- shuffledNearWin (lines 108-122), continued: swap the empty cell with
a uniformly chosen adjacent tile; pick models the random draw (reduced
modulo the number of candidate moves). -/
def shuffledNearWin (pick : Nat) : List Label :=
  if nearWinMoves.length ≠ 0 then
    swapTiles solvedTiles (nearWinMoves.getD (pick % nearWinMoves.length) 0)
      (findEmpty solvedTiles).toNat
  else solvedTiles

/-- Puzzle::State (lines 126-130). startTime is the double returned by
the clock, modelled as Float. -/
structure State where
  tiles : List Label
  isEnd : Bool
  startTime : Option Float

/-- Puzzle actions (lines 132-139). -/
inductive Action where
  | Shuffle : Action
  | Move : Int → Action
  | Restart : Action
  | SetStartTime : Float → Action
  | NearWinShuffle : Action
  | Start : Action

/-- Puzzle effects (lines 140-141). -/
inductive Effect where
  | StartTimer : Effect

/-- Action-specific part of Puzzle::reducer (lines 148-172): the visit
over the action variant. none means the shuffle loop outran the modelled
draws. -/
def applyAction (draws : List (List Label)) (pick : Nat) (s : State) :
    Action → Option (State × List Effect)
  | Action.Start =>
      some (s, if s.startTime.isNone then [Effect.StartTimer] else [])
  | Action.Shuffle =>
      (shuffledSolvableLoop draws).map (fun l => ({ s with tiles := l }, []))
  | Action.Move index =>
      let empty := findEmpty s.tiles
      if findEmpty s.tiles ≠ -1 ∧ 0 ≤ index ∧ index < (s.tiles.length : Int) ∧
          adjacent index empty = true then
        some ({ s with tiles := swapTiles s.tiles index.toNat empty.toNat }, [])
      else some (s, [])
  | Action.Restart =>
      (shuffledSolvableLoop draws).map
        (fun l => ({ s with tiles := l, startTime := none, isEnd := false },
                   [Effect.StartTimer]))
  | Action.SetStartTime t =>
      some ({ s with startTime := some t }, [])
  | Action.NearWinShuffle =>
      some ({ s with tiles := shuffledNearWin pick }, [])

/-- Puzzle::reducer (lines 144-178): the action-specific step followed by
the unconditional recomputation of isEnd and the timer clear on solve
(lines 174-175). -/
def reducer (draws : List (List Label)) (pick : Nat) (s : State) (a : Action) :
    Option (State × List Effect) :=
  (applyAction draws pick s a).map (fun p =>
    ({ p.1 with
        isEnd := isSolved p.1.tiles,
        startTime := if isSolved p.1.tiles = true then none else p.1.startTime },
     p.2))

/-- The State instance built at startup (line 248): tiles from
shuffledSolvable(), isEnd false, startTime GetTime() - 10000 where now is
the startup clock reading. -/
def initState (draws : List (List Label)) (now : Float) : Option State :=
  (shuffledSolvableLoop draws).map
    (fun l => { tiles := l, isEnd := false, startTime := some (now - 10000) })

/-! Helper lemmas about the embedded operations. -/

lemma adjacent_comm (i j : Int) : adjacent i j = adjacent j i := by
  unfold adjacent
  have h1 : (indexCol i - indexCol j).natAbs = (indexCol j - indexCol i).natAbs := by
    rw [← Int.natAbs_neg (indexCol i - indexCol j), neg_sub]
  have h2 : (indexRow i - indexRow j).natAbs = (indexRow j - indexRow i).natAbs := by
    rw [← Int.natAbs_neg (indexRow i - indexRow j), neg_sub]
  rw [h1, h2]
  simp only [decide_eq_decide]
  constructor
  · rintro (⟨h, h'⟩ | ⟨h, h'⟩)
    · exact Or.inl ⟨h.symm, h'⟩
    · exact Or.inr ⟨h.symm, h'⟩
  · rintro (⟨h, h'⟩ | ⟨h, h'⟩)
    · exact Or.inl ⟨h.symm, h'⟩
    · exact Or.inr ⟨h.symm, h'⟩

lemma adjacent_self (i : Int) : adjacent i i = false := by
  simp [adjacent]

lemma findEmptyN_some :
    ∀ {l : List Label} {k : Nat}, findEmptyN l = some k →
      k < l.length ∧ l.getD k none = none := by
  intro l
  induction l with
  | nil => intro k h; simp [findEmptyN] at h
  | cons t rest ih =>
      intro k h
      by_cases ht : t = none
      · simp [findEmptyN, ht] at h
        subst h
        simp [ht]
      · simp only [findEmptyN, ht, if_false, Option.map_eq_some'] at h
        obtain ⟨m, hm, rfl⟩ := h
        obtain ⟨h1, h2⟩ := ih hm
        exact ⟨by simpa using h1, by simpa using h2⟩

lemma findEmptyN_of_mem :
    ∀ {l : List Label}, none ∈ l → ∃ k, findEmptyN l = some k := by
  intro l
  induction l with
  | nil => intro h; simp at h
  | cons t rest ih =>
      intro h
      by_cases ht : t = none
      · exact ⟨0, by simp [findEmptyN, ht]⟩
      · have : none ∈ rest := by
          rcases List.mem_cons.mp h with h' | h'
          · exact absurd h'.symm ht
          · exact h'
        obtain ⟨m, hm⟩ := ih this
        exact ⟨m + 1, by simp [findEmptyN, ht, hm]⟩

lemma getD_eq_none_mem {l : List Label} {k : Nat} (hk : k < l.length)
    (h : l.getD k none = none) : none ∈ l := by
  rw [List.getD_eq_getElem l none hk] at h
  rw [← h]
  exact List.getElem_mem hk

lemma findEmptyN_of_unique :
    ∀ {l : List Label} {k : Nat}, l.count none = 1 → k < l.length →
      l.getD k none = none → findEmptyN l = some k := by
  intro l
  induction l with
  | nil => intro k h hk; simp at hk
  | cons t rest ih =>
      intro k hcount hk hget
      by_cases ht : t = none
      · subst ht
        have hrest : rest.count none = 0 := by
          rw [List.count_cons_self] at hcount
          omega
        have hnomem : (none : Label) ∉ rest := List.count_eq_zero.mp hrest
        match k with
        | 0 => simp [findEmptyN]
        | m + 1 =>
            exfalso
            have hm : m < rest.length := by simpa using hk
            exact hnomem (getD_eq_none_mem hm (by simpa using hget))
      · have hrest : rest.count none = 1 := by
          have hstep := List.count_cons (none : Label) t rest
          have hne : ((t : Label) == none) = false := by
            simp [ht]
          rw [hne] at hstep
          simp at hstep
          omega
        match k with
        | 0 => exact absurd (by simpa using hget) ht
        | m + 1 =>
            have hm : m < rest.length := by simpa using hk
            have := ih hrest hm (by simpa using hget)
            simp [findEmptyN, ht, this]

lemma count_one_of_mem_unique {l : List Label} (h : l.count none = 1) :
    ∀ {j k : Nat}, j < l.length → l.getD j none = none →
      k < l.length → l.getD k none = none → j = k := by
  intro j k hj hgj hk hgk
  have h1 := findEmptyN_of_unique h hj hgj
  have h2 := findEmptyN_of_unique h hk hgk
  rw [h1] at h2
  exact Option.some_injective _ h2

lemma length_swapTiles (l : List Label) (i j : Nat) :
    (swapTiles l i j).length = l.length := by
  simp [swapTiles]

lemma getD_cons_set_perm (x : Label) :
    ∀ (l : List Label) (k : Nat), k < l.length →
      List.Perm (l.getD k none :: l.set k x) (x :: l) := by
  intro l
  induction l with
  | nil => intro k h; simp at h
  | cons a t ih =>
      intro k hk
      match k with
      | 0 =>
          simp only [List.getD_cons_zero, List.set_cons_zero]
          exact List.Perm.swap x a t
      | m + 1 =>
          have hm : m < t.length := by simpa using hk
          simp only [List.getD_cons_succ, List.set_cons_succ]
          exact ((List.Perm.swap a (t.getD m none) (t.set m x)).trans
            (((ih m hm).cons a).trans (List.Perm.swap x a t)))

lemma swapTiles_perm :
    ∀ (l : List Label) (i j : Nat), i < l.length → j < l.length →
      List.Perm (swapTiles l i j) l := by
  intro l
  induction l with
  | nil => intro i j hi; simp at hi
  | cons a t ih =>
      intro i j hi hj
      match i, j with
      | 0, 0 => simp [swapTiles]
      | 0, k + 1 =>
          have hk : k < t.length := by simpa using hj
          simp only [swapTiles, List.getD_cons_zero, List.getD_cons_succ,
            List.set_cons_zero, List.set_cons_succ]
          exact getD_cons_set_perm a t k hk
      | m + 1, 0 =>
          have hm : m < t.length := by simpa using hi
          simp only [swapTiles, List.getD_cons_zero, List.getD_cons_succ,
            List.set_cons_zero, List.set_cons_succ]
          exact getD_cons_set_perm a t m hm
      | m + 1, k + 1 =>
          have hm : m < t.length := by simpa using hi
          have hk : k < t.length := by simpa using hj
          simp only [swapTiles, List.getD_cons_succ, List.set_cons_succ]
          exact (ih m k hm hk).cons a

lemma getElem?_swapTiles (l : List Label) (i j k : Nat)
    (hi : i < l.length) (hj : j < l.length) :
    (swapTiles l i j)[k]? =
      if j = k then some (l.getD i none)
      else if i = k then some (l.getD j none)
      else l[k]? := by
  simp only [swapTiles, List.getElem?_set, List.length_set, hi, hj, if_true]

lemma getD_swapTiles_fst (l : List Label) (i j : Nat)
    (hi : i < l.length) (hj : j < l.length) :
    (swapTiles l i j).getD i none = l.getD j none := by
  rw [List.getD_eq_getElem?_getD, getElem?_swapTiles l i j i hi hj]
  by_cases h : j = i
  · subst h; simp
  · simp [h]

lemma getD_swapTiles_snd (l : List Label) (i j : Nat)
    (hi : i < l.length) (hj : j < l.length) :
    (swapTiles l i j).getD j none = l.getD i none := by
  rw [List.getD_eq_getElem?_getD, getElem?_swapTiles l i j j hi hj]
  simp

lemma swapTiles_swapTiles (l : List Label) (i j : Nat)
    (hi : i < l.length) (hj : j < l.length) :
    swapTiles (swapTiles l i j) j i = l := by
  apply List.ext_getElem?
  intro k
  have hi' : i < (swapTiles l i j).length := by rw [length_swapTiles]; exact hi
  have hj' : j < (swapTiles l i j).length := by rw [length_swapTiles]; exact hj
  rw [getElem?_swapTiles (swapTiles l i j) j i k hj' hi']
  by_cases hik : i = k
  · subst hik
    rw [if_pos rfl, getD_swapTiles_snd l i j hi hj,
      List.getElem?_eq_getElem hi, List.getD_eq_getElem l none hi]
  · rw [if_neg hik]
    by_cases hjk : j = k
    · subst hjk
      rw [if_pos rfl, getD_swapTiles_fst l i j hi hj,
        List.getElem?_eq_getElem hj, List.getD_eq_getElem l none hj]
    · rw [if_neg hjk, getElem?_swapTiles l i j k hi hj, if_neg hjk, if_neg hik]

lemma shuffledSolvableLoop_spec :
    ∀ {draws : List (List Label)} {l : List Label},
      shuffledSolvableLoop draws = some l →
        isSolvable l = true ∧ isSolved l = false := by
  intro draws
  induction draws with
  | nil => intro l h; simp [shuffledSolvableLoop] at h
  | cons d rest ih =>
      intro l h
      by_cases hd : isSolvable d = true ∧ isSolved d = false
      · rw [shuffledSolvableLoop, if_pos hd] at h
        cases h
        exact hd
      · rw [shuffledSolvableLoop, if_neg hd] at h
        exact ih h

lemma shuffledSolvableLoop_mem :
    ∀ {draws : List (List Label)} {l : List Label},
      shuffledSolvableLoop draws = some l → l ∈ draws := by
  intro draws
  induction draws with
  | nil => intro l h; simp [shuffledSolvableLoop] at h
  | cons d rest ih =>
      intro l h
      by_cases hd : isSolvable d = true ∧ isSolved d = false
      · rw [shuffledSolvableLoop, if_pos hd] at h
        cases h
        exact List.mem_cons_self d rest
      · rw [shuffledSolvableLoop, if_neg hd] at h
        exact List.mem_cons_of_mem d (ih h)

/-- The standing board invariant of the data model: tileCount entries,
exactly one empty label, and the non-empty labels a duplicate-free
permutation of 1..tileCount-1. -/
def tilesInvariant (tiles : List Label) : Prop :=
  tiles.length = Config.tileCount ∧ tiles.count none = 1 ∧
    List.Perm (tiles.filterMap id) (List.range' 1 (Config.tileCount - 1))

instance (tiles : List Label) : Decidable (tilesInvariant tiles) := by
  unfold tilesInvariant
  infer_instance

lemma count_none_of_perm {l l' : List Label} (hp : List.Perm l l') :
    l.count none = l'.count none := by
  have h := List.Perm.countP_eq (· == (none : Label)) hp
  simpa [List.count] using h

lemma tilesInvariant_of_perm {l l' : List Label} (hp : List.Perm l l')
    (h : tilesInvariant l) : tilesInvariant l' := by
  obtain ⟨h1, h2, h3⟩ := h
  refine ⟨?_, ?_, ?_⟩
  · rw [← hp.length_eq]; exact h1
  · rw [← count_none_of_perm hp]; exact h2
  · exact (List.Perm.filterMap id hp).symm.trans h3

lemma tilesInvariant_solvedTiles : tilesInvariant solvedTiles := by decide

lemma nearWinMoves_eq : nearWinMoves = [11, 14] := by decide

lemma shuffledNearWin_cases (pick : Nat) :
    shuffledNearWin pick = swapTiles solvedTiles 11 15 ∨
    shuffledNearWin pick = swapTiles solvedTiles 14 15 := by
  have hfe : (findEmpty solvedTiles).toNat = 15 := by decide
  unfold shuffledNearWin
  rw [nearWinMoves_eq, hfe]
  norm_num
  rcases Nat.mod_two_eq_zero_or_one pick with h | h
  · left; rw [h]; decide
  · right; rw [h]; decide

/-- Unfolding equation of applyAction on Start. -/
lemma applyAction_start (draws : List (List Label)) (pick : Nat) (s : State) :
    applyAction draws pick s Action.Start =
      some (s, if s.startTime.isNone then [Effect.StartTimer] else []) := rfl

/-- Unfolding equation of applyAction on Shuffle. -/
lemma applyAction_shuffle (draws : List (List Label)) (pick : Nat) (s : State) :
    applyAction draws pick s Action.Shuffle =
      (shuffledSolvableLoop draws).map (fun l => ({ s with tiles := l }, [])) := rfl

/-- Unfolding equation of applyAction on Move. -/
lemma applyAction_move (draws : List (List Label)) (pick : Nat) (s : State)
    (index : Int) :
    applyAction draws pick s (Action.Move index) =
      (if findEmpty s.tiles ≠ -1 ∧ 0 ≤ index ∧
          index < (s.tiles.length : Int) ∧
          adjacent index (findEmpty s.tiles) = true then
        some ({ s with
          tiles := swapTiles s.tiles index.toNat (findEmpty s.tiles).toNat }, [])
      else some (s, [])) := rfl

/-- Unfolding equation of applyAction on Restart. -/
lemma applyAction_restart (draws : List (List Label)) (pick : Nat) (s : State) :
    applyAction draws pick s Action.Restart =
      (shuffledSolvableLoop draws).map
        (fun l => ({ s with tiles := l, startTime := none, isEnd := false },
          [Effect.StartTimer])) := rfl

/-- Unfolding equation of applyAction on SetStartTime. -/
lemma applyAction_setStartTime (draws : List (List Label)) (pick : Nat)
    (s : State) (t : Float) :
    applyAction draws pick s (Action.SetStartTime t) =
      some ({ s with startTime := some t }, []) := rfl

/-- Unfolding equation of applyAction on NearWinShuffle. -/
lemma applyAction_nearWin (draws : List (List Label)) (pick : Nat) (s : State) :
    applyAction draws pick s Action.NearWinShuffle =
      some ({ s with tiles := shuffledNearWin pick }, []) := rfl

/-- Reduction of a Move action in closed form: the reducer always
returns normally with no effects, swapping exactly under the guard of
lines 158-159. -/
lemma reducer_move (draws : List (List Label)) (pick : Nat) (s : State)
    (index : Int) :
    ∃ ns effs, reducer draws pick s (Action.Move index) = some (ns, effs) ∧
      effs = [] ∧
      ns.tiles =
        (if findEmpty s.tiles ≠ -1 ∧ 0 ≤ index ∧
            index < (s.tiles.length : Int) ∧
            adjacent index (findEmpty s.tiles) = true then
          swapTiles s.tiles index.toNat (findEmpty s.tiles).toNat
        else s.tiles) := by
  unfold reducer
  rw [applyAction_move]
  by_cases hC : findEmpty s.tiles ≠ -1 ∧ 0 ≤ index ∧
      index < (s.tiles.length : Int) ∧
      adjacent index (findEmpty s.tiles) = true
  · rw [if_pos hC, if_pos hC, Option.map_some']
    exact ⟨_, _, rfl, rfl, rfl⟩
  · rw [if_neg hC, if_neg hC, Option.map_some']
    exact ⟨_, _, rfl, rfl, rfl⟩

/-- Claim C9: the adjacency test is symmetric and irreflexive, and
consequently reducing Move at the current empty index leaves the tiles
unchanged for every state. -/
theorem C9_adjacent_symm_irrefl_move_noop :
    (∀ i j : Int, adjacent i j = adjacent j i) ∧
    (∀ i : Int, adjacent i i = false) ∧
    (∀ (draws : List (List Label)) (pick : Nat) (s : State),
      (reducer draws pick s (Action.Move (findEmpty s.tiles))).map
        (fun p => p.1.tiles) = some s.tiles) := by
  refine ⟨adjacent_comm, adjacent_self, ?_⟩
  intro draws pick s
  obtain ⟨ns, effs, hred, -, htiles⟩ :=
    reducer_move draws pick s (findEmpty s.tiles)
  rw [hred, Option.map_some']
  rw [if_neg ?_] at htiles
  · rw [htiles]
  · intro hC
    rw [adjacent_self] at hC
    exact Bool.false_ne_true hC.2.2.2

/-- Claim C2: for every state and every action, the reduced state has
isEnd equal to the solved predicate recomputed on its tiles, and
whenever that predicate holds the returned startTime is absent — for
every action, including SetStartTime. -/
theorem C2_isEnd_recomputed_timer_cleared (draws : List (List Label))
    (pick : Nat) (s : State) (a : Action) (ns : State) (effs : List Effect)
    (h : reducer draws pick s a = some (ns, effs)) :
    ns.isEnd = isSolved ns.tiles ∧
    (isSolved ns.tiles = true → ns.startTime = none) := by
  unfold reducer at h
  obtain ⟨p, hp, heq⟩ := Option.map_eq_some'.mp h
  injection heq with h1 h2
  subst h1
  refine ⟨rfl, ?_⟩
  intro hs
  have hs' : isSolved p.1.tiles = true := hs
  show (if isSolved p.1.tiles = true then none else p.1.startTime) = none
  rw [if_pos hs']

/-- Claim C2 witness: the theorem applied to the Start action on the
solved board. -/
theorem C2_witness :
    reducer [] 0 ⟨solvedTiles, false, none⟩ Action.Start =
      some (⟨solvedTiles, true, none⟩, [Effect.StartTimer]) ∧
    ((⟨solvedTiles, true, none⟩ : State).isEnd =
        isSolved (⟨solvedTiles, true, none⟩ : State).tiles ∧
      (isSolved (⟨solvedTiles, true, none⟩ : State).tiles = true →
        (⟨solvedTiles, true, none⟩ : State).startTime = none)) :=
  ⟨rfl, C2_isEnd_recomputed_timer_cleared [] 0 ⟨solvedTiles, false, none⟩
    Action.Start ⟨solvedTiles, true, none⟩ [Effect.StartTimer] rfl⟩

/-- Claim C4: every label sequence returned by shuffledSolvable — the
loop modelled over any terminating stream of shuffle draws — is solvable
and not solved. -/
theorem C4_shuffle_solvable_not_solved (draws : List (List Label))
    (l : List Label) (h : shuffledSolvableLoop draws = some l) :
    isSolvable l = true ∧ isSolved l = false :=
  shuffledSolvableLoop_spec h

/-- Claim C4 witness: a one-draw stream whose draw is one move away from
solved. -/
theorem C4_witness :
    shuffledSolvableLoop [swapTiles solvedTiles 14 15] =
      some (swapTiles solvedTiles 14 15) ∧
    (isSolvable (swapTiles solvedTiles 14 15) = true ∧
      isSolved (swapTiles solvedTiles 14 15) = false) :=
  ⟨by decide, C4_shuffle_solvable_not_solved [swapTiles solvedTiles 14 15]
    (swapTiles solvedTiles 14 15) (by decide)⟩

/-- Claim C1: on a state whose tiles hold an empty cell (and satisfy the
data-model length), reducing Move(index) swaps the label at index with
the empty label exactly when 0 <= index < tileCount and index is
adjacent to the empty index; in every other case the tiles are returned
unchanged, and in all cases the reducer returns normally with no
effects. -/
theorem C1_move_semantics (draws : List (List Label)) (pick : Nat)
    (s : State) (index : Int)
    (hlen : s.tiles.length = Config.tileCount)
    (hempty : none ∈ s.tiles) :
    (reducer draws pick s (Action.Move index)).map (fun p => (p.1.tiles, p.2)) =
      some
        ((if 0 ≤ index ∧ index < (Config.tileCount : Int) ∧
              adjacent index (findEmpty s.tiles) = true then
            (s.tiles.set index.toNat
                (s.tiles.getD (findEmpty s.tiles).toNat none)).set
              (findEmpty s.tiles).toNat (s.tiles.getD index.toNat none)
          else s.tiles),
         []) ∧
    s.tiles.getD (findEmpty s.tiles).toNat none = none := by
  obtain ⟨k, hk⟩ := findEmptyN_of_mem hempty
  obtain ⟨hklt, hkget⟩ := findEmptyN_some hk
  have hfe : findEmpty s.tiles = (k : Int) := by unfold findEmpty; rw [hk]
  have htn : (findEmpty s.tiles).toNat = k := by rw [hfe, Int.toNat_natCast]
  constructor
  · obtain ⟨ns, effs, hred, heffs, htiles⟩ := reducer_move draws pick s index
    rw [hred, Option.map_some']
    subst heffs
    have hiff : (findEmpty s.tiles ≠ -1 ∧ 0 ≤ index ∧
        index < (s.tiles.length : Int) ∧
        adjacent index (findEmpty s.tiles) = true) ↔
        (0 ≤ index ∧ index < (Config.tileCount : Int) ∧
          adjacent index (findEmpty s.tiles) = true) := by
      rw [hlen, hfe]
      constructor
      · rintro ⟨-, h1, h2, h3⟩; exact ⟨h1, h2, h3⟩
      · rintro ⟨h1, h2, h3⟩; exact ⟨by omega, h1, h2, h3⟩
    by_cases hD : 0 ≤ index ∧ index < (Config.tileCount : Int) ∧
        adjacent index (findEmpty s.tiles) = true
    · rw [if_pos (hiff.mpr hD)] at htiles
      rw [if_pos hD, htiles]
      rfl
    · rw [if_neg (fun hc => hD (hiff.mp hc))] at htiles
      rw [if_neg hD, htiles]
  · rw [htn]; exact hkget

/-- Claim C1 witness: the theorem applied to the in-range adjacent move
of tile 15 on the solved board. -/
theorem C1_witness :
    ((⟨solvedTiles, false, none⟩ : State).tiles.length = Config.tileCount ∧
      none ∈ (⟨solvedTiles, false, none⟩ : State).tiles) ∧
    ((reducer [] 0 ⟨solvedTiles, false, none⟩ (Action.Move 14)).map
        (fun p => (p.1.tiles, p.2)) =
      some
        ((if 0 ≤ (14 : Int) ∧ (14 : Int) < (Config.tileCount : Int) ∧
              adjacent 14 (findEmpty (⟨solvedTiles, false, none⟩ : State).tiles) = true then
            ((⟨solvedTiles, false, none⟩ : State).tiles.set (14 : Int).toNat
                ((⟨solvedTiles, false, none⟩ : State).tiles.getD
                  (findEmpty (⟨solvedTiles, false, none⟩ : State).tiles).toNat none)).set
              (findEmpty (⟨solvedTiles, false, none⟩ : State).tiles).toNat
              ((⟨solvedTiles, false, none⟩ : State).tiles.getD (14 : Int).toNat none)
          else (⟨solvedTiles, false, none⟩ : State).tiles),
         []) ∧
      (⟨solvedTiles, false, none⟩ : State).tiles.getD
        (findEmpty (⟨solvedTiles, false, none⟩ : State).tiles).toNat none = none) :=
  ⟨⟨by decide, by decide⟩,
    C1_move_semantics [] 0 ⟨solvedTiles, false, none⟩ 14 (by decide) (by decide)⟩

/-- The timer group named by the spec: Start, Restart, SetStartTime. -/
def timerGroup : Action → Bool
  | Action.Start => true
  | Action.Restart => true
  | Action.SetStartTime _ => true
  | _ => false

/-- The tiles group named by the spec: Move, Shuffle, NearWinShuffle. -/
def tilesGroup : Action → Bool
  | Action.Move _ => true
  | Action.Shuffle => true
  | Action.NearWinShuffle => true
  | _ => false

/-- Claim C6 counterexample: Restart lies outside the claimed tiles
group yet replaces the tiles, and Move — outside the claimed timer
group — clears a present startTime when the move solves the board. -/
theorem C6_counterexample :
    tilesGroup Action.Restart = false ∧
    (reducer [swapTiles solvedTiles 14 15] 0 ⟨solvedTiles, true, none⟩
        Action.Restart).map (fun p => p.1.tiles == solvedTiles) = some false ∧
    timerGroup (Action.Move 15) = false ∧
    (Option.isNone (some (0 : Float))) = false ∧
    (reducer [] 0 ⟨swapTiles solvedTiles 14 15, false, some 0⟩
        (Action.Move 15)).map (fun p => p.1.startTime.isNone) = some true :=
  ⟨rfl, rfl, rfl, rfl, rfl⟩

/-- Claim C6 amended: actions outside the timer group leave startTime
unchanged except for the unconditional clear-on-solve of line 175, and
actions outside the tiles group leave tiles unchanged except Restart,
which also replaces them (line 163). -/
theorem C6_amended_frame (draws : List (List Label)) (pick : Nat)
    (s : State) (a : Action) (ns : State) (effs : List Effect)
    (h : reducer draws pick s a = some (ns, effs)) :
    (tilesGroup a = false ∧ a ≠ Action.Restart → ns.tiles = s.tiles) ∧
    (timerGroup a = false →
      ns.startTime = (if isSolved ns.tiles = true then none else s.startTime)) := by
  unfold reducer at h
  obtain ⟨p, hp, heq⟩ := Option.map_eq_some'.mp h
  injection heq with h1 h2
  subst h1
  cases a with
  | Start =>
      rw [applyAction_start] at hp
      injection hp with hp
      subst hp
      exact ⟨fun _ => rfl, fun hf => absurd hf (by decide)⟩
  | Shuffle =>
      rw [applyAction_shuffle] at hp
      obtain ⟨l, hl, heq2⟩ := Option.map_eq_some'.mp hp
      subst heq2
      exact ⟨fun hf => absurd hf.1 (by decide), fun _ => rfl⟩
  | Move index =>
      rw [applyAction_move] at hp
      by_cases hC : findEmpty s.tiles ≠ -1 ∧ 0 ≤ index ∧
          index < (s.tiles.length : Int) ∧
          adjacent index (findEmpty s.tiles) = true
      · rw [if_pos hC] at hp
        injection hp with hp
        subst hp
        exact ⟨fun hf => absurd hf.1 (by simp [tilesGroup]), fun _ => rfl⟩
      · rw [if_neg hC] at hp
        injection hp with hp
        subst hp
        exact ⟨fun hf => absurd hf.1 (by simp [tilesGroup]), fun _ => rfl⟩
  | Restart =>
      rw [applyAction_restart] at hp
      obtain ⟨l, hl, heq2⟩ := Option.map_eq_some'.mp hp
      subst heq2
      exact ⟨fun hf => absurd rfl hf.2, fun hf => absurd hf (by decide)⟩
  | SetStartTime t =>
      rw [applyAction_setStartTime] at hp
      injection hp with hp
      subst hp
      exact ⟨fun _ => rfl, fun hf => absurd hf (by simp [timerGroup])⟩
  | NearWinShuffle =>
      rw [applyAction_nearWin] at hp
      injection hp with hp
      subst hp
      exact ⟨fun hf => absurd hf.1 (by decide), fun _ => rfl⟩

/-- Claim C6 amended witness: a Move outside both groups, on an
unsolved result. -/
theorem C6_amended_witness :
    reducer [] 0 ⟨solvedTiles, false, none⟩ (Action.Move 0) =
      some (⟨solvedTiles, true, none⟩, []) ∧
    ((tilesGroup (Action.Move 0) = false ∧ Action.Move 0 ≠ Action.Restart →
        (⟨solvedTiles, true, none⟩ : State).tiles =
          (⟨solvedTiles, false, none⟩ : State).tiles) ∧
      (timerGroup (Action.Move 0) = false →
        (⟨solvedTiles, true, none⟩ : State).startTime =
          (if isSolved (⟨solvedTiles, true, none⟩ : State).tiles = true then none
            else (⟨solvedTiles, false, none⟩ : State).startTime))) := by
  constructor
  · rfl
  · exact C6_amended_frame [] 0 ⟨solvedTiles, false, none⟩ (Action.Move 0)
      ⟨solvedTiles, true, none⟩ [] rfl

/-- Claim C7 counterexample: the State built at startup (line 248) holds
a shuffled, therefore non-solved, board and a present startTime — not
the solved arrangement with absent timer the claim describes. -/
theorem C7_counterexample :
    (initState [swapTiles solvedTiles 14 15] 0).map
      (fun s => (s.tiles == solvedTiles, s.startTime.isNone)) =
      some (false, false) := rfl

/-- Claim C7 amended: the State created at startup carries a
shuffledSolvable board — solvable and not solved, hence not the
canonical solved arrangement — with isEnd false and a present startTime
set 10000 seconds before the startup clock reading. -/
theorem C7_amended_init (draws : List (List Label)) (now : Float)
    (s : State) (h : initState draws now = some s) :
    isSolvable s.tiles = true ∧ isSolved s.tiles = false ∧
    s.isEnd = false ∧ s.startTime = some (now - 10000) := by
  unfold initState at h
  obtain ⟨l, hl, heq⟩ := Option.map_eq_some'.mp h
  obtain ⟨h1, h2⟩ := shuffledSolvableLoop_spec hl
  subst heq
  exact ⟨h1, h2, rfl, rfl⟩

/-- Claim C7 amended witness. -/
theorem C7_amended_witness :
    initState [swapTiles solvedTiles 14 15] 0 =
      some ⟨swapTiles solvedTiles 14 15, false, some ((0 : Float) - 10000)⟩ ∧
    (isSolvable (swapTiles solvedTiles 14 15) = true ∧
      isSolved (swapTiles solvedTiles 14 15) = false ∧
      (⟨swapTiles solvedTiles 14 15, false,
        some ((0 : Float) - 10000)⟩ : State).isEnd = false ∧
      (⟨swapTiles solvedTiles 14 15, false,
        some ((0 : Float) - 10000)⟩ : State).startTime =
        some ((0 : Float) - 10000)) :=
  ⟨rfl, C7_amended_init [swapTiles solvedTiles 14 15] 0
    ⟨swapTiles solvedTiles 14 15, false, some ((0 : Float) - 10000)⟩ rfl⟩

/-- Claim C5: every action preserves the board invariant, given that
every modelled shuffle draw is a permutation of the solved arrangement
(std::shuffle only permutes its input). This covers the Move swap and
the replacement sequences of both shuffles. -/
theorem C5_invariant_preserved (draws : List (List Label)) (pick : Nat)
    (s : State) (a : Action) (ns : State) (effs : List Effect)
    (hdraws : ∀ d ∈ draws, List.Perm d solvedTiles)
    (hinv : tilesInvariant s.tiles)
    (h : reducer draws pick s a = some (ns, effs)) :
    tilesInvariant ns.tiles := by
  unfold reducer at h
  obtain ⟨p, hp, heq⟩ := Option.map_eq_some'.mp h
  injection heq with h1 h2
  subst h1
  show tilesInvariant p.1.tiles
  cases a with
  | Start =>
      rw [applyAction_start] at hp
      injection hp with hp
      subst hp
      exact hinv
  | Shuffle =>
      rw [applyAction_shuffle] at hp
      obtain ⟨l, hl, heq2⟩ := Option.map_eq_some'.mp hp
      subst heq2
      exact tilesInvariant_of_perm
        (hdraws l (shuffledSolvableLoop_mem hl)).symm tilesInvariant_solvedTiles
  | Move index =>
      rw [applyAction_move] at hp
      by_cases hC : findEmpty s.tiles ≠ -1 ∧ 0 ≤ index ∧
          index < (s.tiles.length : Int) ∧
          adjacent index (findEmpty s.tiles) = true
      · rw [if_pos hC] at hp
        injection hp with hp
        subst hp
        obtain ⟨hne, hge, hlt, -⟩ := hC
        obtain ⟨k, hk⟩ : ∃ k, findEmptyN s.tiles = some k := by
          cases hfn : findEmptyN s.tiles with
          | some k => exact ⟨k, rfl⟩
          | none => exact absurd (by unfold findEmpty; rw [hfn]) hne
        obtain ⟨hklt, -⟩ := findEmptyN_some hk
        have htn : (findEmpty s.tiles).toNat = k := by
          unfold findEmpty; rw [hk, Int.toNat_natCast]
        show tilesInvariant
          (swapTiles s.tiles index.toNat (findEmpty s.tiles).toNat)
        rw [htn]
        have hidx : index.toNat < s.tiles.length := by omega
        exact tilesInvariant_of_perm
          (swapTiles_perm s.tiles index.toNat k hidx hklt).symm hinv
      · rw [if_neg hC] at hp
        injection hp with hp
        subst hp
        exact hinv
  | Restart =>
      rw [applyAction_restart] at hp
      obtain ⟨l, hl, heq2⟩ := Option.map_eq_some'.mp hp
      subst heq2
      exact tilesInvariant_of_perm
        (hdraws l (shuffledSolvableLoop_mem hl)).symm tilesInvariant_solvedTiles
  | SetStartTime t =>
      rw [applyAction_setStartTime] at hp
      injection hp with hp
      subst hp
      exact hinv
  | NearWinShuffle =>
      rw [applyAction_nearWin] at hp
      injection hp with hp
      subst hp
      show tilesInvariant (shuffledNearWin pick)
      rcases shuffledNearWin_cases pick with hc | hc <;> rw [hc]
      · exact tilesInvariant_of_perm
          (swapTiles_perm solvedTiles 11 15 (by decide) (by decide)).symm
          tilesInvariant_solvedTiles
      · exact tilesInvariant_of_perm
          (swapTiles_perm solvedTiles 14 15 (by decide) (by decide)).symm
          tilesInvariant_solvedTiles

/-- Claim C5 witness: the near-win shuffle applied to the solved state. -/
theorem C5_witness :
    (∀ d ∈ ([] : List (List Label)), List.Perm d solvedTiles) ∧
    tilesInvariant (⟨solvedTiles, false, none⟩ : State).tiles ∧
    reducer [] 0 ⟨solvedTiles, false, none⟩ Action.NearWinShuffle =
      some (⟨swapTiles solvedTiles 11 15, false, none⟩, []) ∧
    tilesInvariant (⟨swapTiles solvedTiles 11 15, false, none⟩ : State).tiles :=
  ⟨by simp, by decide, rfl,
    C5_invariant_preserved [] 0 ⟨solvedTiles, false, none⟩ Action.NearWinShuffle
      ⟨swapTiles solvedTiles 11 15, false, none⟩ [] (by simp) (by decide) rfl⟩

/-- Claim C8 counterexample: read as stated — the second move targets
the new empty position, which after Move(i) is i itself — the round
trip fails: the second Move is a no-op (the empty cell is not adjacent
to itself) and the board stays one move away from the original. -/
theorem C8_counterexample :
    (reducer [] 0 ⟨solvedTiles, false, none⟩ (Action.Move 14)).map
      (fun p => (findEmpty p.1.tiles == 14,
        (reducer [] 0 p.1 (Action.Move 14)).map
          (fun q => q.1.tiles == solvedTiles))) =
      some (true, some false) := rfl

/-- Claim C8 amended: for a board with exactly one empty cell at
e = findEmpty and any index i adjacent to e, applying Move(i) and then
Move(e) — the original empty position, which now holds the moved tile,
rather than the new empty position — restores the tiles exactly. -/
theorem C8_amended_roundtrip (draws draws' : List (List Label))
    (pick pick' : Nat) (s : State) (i : Int)
    (hlen : s.tiles.length = Config.tileCount)
    (hone : s.tiles.count none = 1)
    (hadj : adjacent i (findEmpty s.tiles) = true) :
    ∃ ns effs ns' effs',
      reducer draws pick s (Action.Move i) = some (ns, effs) ∧
      reducer draws' pick' ns (Action.Move (findEmpty s.tiles)) =
        some (ns', effs') ∧
      ns'.tiles = s.tiles := by
  have hmem : none ∈ s.tiles := by
    refine List.count_pos_iff_mem.mp ?_
    omega
  obtain ⟨k, hk⟩ := findEmptyN_of_mem hmem
  obtain ⟨hklt, hkget⟩ := findEmptyN_some hk
  have hfe : findEmpty s.tiles = (k : Int) := by unfold findEmpty; rw [hk]
  obtain ⟨ns, effs, hred1, -, htiles1⟩ := reducer_move draws pick s i
  obtain ⟨ns', effs', hred2, -, htiles2⟩ :=
    reducer_move draws' pick' ns (findEmpty s.tiles)
  refine ⟨ns, effs, ns', effs', hred1, hred2, ?_⟩
  by_cases hin : 0 ≤ i ∧ i < (s.tiles.length : Int)
  · -- in range: the first move swaps, the second swaps back
    rw [if_pos ⟨by rw [hfe]; omega, hin.1, hin.2, hadj⟩] at htiles1
    rw [hfe, Int.toNat_natCast] at htiles1
    have hitoNat : i.toNat < s.tiles.length := by omega
    have hik : i.toNat ≠ k := by
      intro hcontra
      have hi' : i = (k : Int) := by omega
      rw [hi', hfe, adjacent_self] at hadj
      exact Bool.false_ne_true hadj
    have hcount : ns.tiles.count none = 1 := by
      rw [htiles1,
        count_none_of_perm (swapTiles_perm s.tiles i.toNat k hitoNat hklt)]
      exact hone
    have hnlen : ns.tiles.length = s.tiles.length := by
      rw [htiles1, length_swapTiles]
    have hget : ns.tiles.getD i.toNat none = none := by
      rw [htiles1, getD_swapTiles_fst s.tiles i.toNat k hitoNat hklt]
      exact hkget
    have hfen : findEmptyN ns.tiles = some i.toNat :=
      findEmptyN_of_unique hcount (by rw [hnlen]; exact hitoNat) hget
    have hfe2 : findEmpty ns.tiles = (i.toNat : Int) := by
      unfold findEmpty; rw [hfen]
    have hadj2 : adjacent (k : Int) (findEmpty ns.tiles) = true := by
      rw [hfe2, Int.toNat_of_nonneg hin.1, adjacent_comm, ← hfe]
      exact hadj
    rw [hfe] at htiles2
    rw [if_pos ⟨by rw [hfe2]; omega, by omega,
      by rw [hnlen]; exact_mod_cast hklt, hadj2⟩] at htiles2
    rw [htiles2, hfe2, Int.toNat_natCast, Int.toNat_natCast, htiles1]
    exact swapTiles_swapTiles s.tiles i.toNat k hitoNat hklt
  · -- out of range: both moves are no-ops
    rw [if_neg (fun hc => hin ⟨hc.2.1, hc.2.2.1⟩)] at htiles1
    rw [htiles1] at htiles2
    rw [if_neg ?_] at htiles2
    · rw [htiles2]
    · intro hc
      rw [adjacent_self] at hc
      exact Bool.false_ne_true hc.2.2.2

/-- Claim C8 amended witness: moving tile 15 on the solved board and
moving it back. -/
theorem C8_amended_witness :
    ((⟨solvedTiles, false, none⟩ : State).tiles.length = Config.tileCount ∧
      (⟨solvedTiles, false, none⟩ : State).tiles.count none = 1 ∧
      adjacent 14 (findEmpty (⟨solvedTiles, false, none⟩ : State).tiles) = true) ∧
    (∃ ns effs ns' effs',
      reducer [] 0 ⟨solvedTiles, false, none⟩ (Action.Move 14) =
        some (ns, effs) ∧
      reducer [] 0 ns
          (Action.Move (findEmpty (⟨solvedTiles, false, none⟩ : State).tiles)) =
        some (ns', effs') ∧
      ns'.tiles = (⟨solvedTiles, false, none⟩ : State).tiles) :=
  ⟨⟨by decide, by decide, by decide⟩,
    C8_amended_roundtrip [] [] 0 0 ⟨solvedTiles, false, none⟩ 14
      (by decide) (by decide) (by decide)⟩

/-- Reading every position of a list through getD and keeping the
non-empty labels is the same as filtering the list itself. -/
lemma filterMap_getD_range (l : List Label) :
    (List.range l.length).filterMap (fun i => l.getD i none) = l.filterMap id := by
  induction l using List.reverseRecOn with
  | nil => rfl
  | append_singleton t a ih =>
      have hlen : (t ++ [a]).length = t.length + 1 := by simp
      rw [hlen, List.range_succ, List.filterMap_append, List.filterMap_append]
      congr 1
      · have hcongr : ∀ x ∈ List.range t.length,
            (t ++ [a]).getD x none = t.getD x none := fun x hx =>
          List.getD_append t [a] none x (List.mem_range.mp hx)
        rw [List.filterMap_congr hcongr, ih]
      · have h1 : (t ++ [a]).getD t.length none = a := by
          rw [List.getD_append_right t [a] none t.length (le_refl t.length)]
          simp
        cases a with
        | none => simp [List.filterMap_cons, h1]
        | some v => simp [List.filterMap_cons, h1]

/-- A fold that overwrites its accumulator at every empty position
returns the value at the unique empty position. -/
lemma foldl_range_unique (l : List Label) (f : Nat → Int) :
    ∀ (n : Nat) (acc : Int) (e : Nat), e < n → l.getD e none = none →
      (∀ k, k < n → k ≠ e → l.getD k none ≠ none) →
      (List.range n).foldl
        (fun acc i => if l.getD i none = none then f i else acc) acc = f e := by
  intro n
  induction n with
  | zero => intro acc e he _ _; exact absurd he (Nat.not_lt_zero e)
  | succ n ih =>
      intro acc e he hee huniq
      rw [List.range_succ, List.foldl_append]
      simp only [List.foldl_cons, List.foldl_nil]
      by_cases hen : e = n
      · subst hen
        rw [if_pos hee]
      · have hne : l.getD n none ≠ none :=
          huniq n (by omega) (fun h => hen h.symm)
        rw [if_neg hne]
        exact ih acc e (by omega) hee (fun k hk hke => huniq k (by omega) hke)

/-- Claim C3: for every 4x4 label arrangement with exactly one empty
cell and distinct positive integer labels, isSolvable returns true iff
the even-grid parity rule holds: emptyRowFromBottom (gridSize minus the
row of the empty index) is even exactly when the inversion count of the
non-empty labels in reading order is odd. -/
theorem C3_solvable_parity_rule (labels : List Label) (e : Nat)
    (hlen : labels.length = Config.tileCount)
    (he : e < Config.tileCount)
    (hee : labels.getD e none = none)
    (huniq : ∀ k, k < Config.tileCount → k ≠ e → labels.getD k none ≠ none)
    (hnodup : (labels.filterMap id).Nodup)
    (hpos : ∀ v ∈ labels.filterMap id, 0 < v) :
    isSolvable labels = true ↔
      (Even ((Config.grid : Int) - indexRow (e : Int)) ↔
        Odd (inversionCount (labels.filterMap id))) := by
  have hvals : solvableVals labels = labels.filterMap id := by
    unfold solvableVals solvableReads
    rw [List.filterMap_map, show List.range Config.tileCount =
      List.range labels.length by rw [hlen]]
    exact filterMap_getD_range labels
  have herfb : emptyRowFromBottom labels =
      (Config.grid : Int) - indexRow (e : Int) := by
    unfold emptyRowFromBottom solvableReads
    rw [List.foldl_map]
    exact foldl_range_unique labels
      (fun i => (Config.grid : Int) - indexRow (i : Int))
      Config.tileCount 0 e he hee huniq
  unfold isSolvable solvableVerdict
  rw [hvals, herfb, if_neg (by decide : ¬ (Config.grid % 2 = 1))]
  by_cases h2 : ((Config.grid : Int) - indexRow (e : Int)) % 2 = 0
  · rw [if_pos h2]
    simp only [decide_eq_true_eq]
    have hEven : Even ((Config.grid : Int) - indexRow (e : Int)) :=
      Int.even_iff.mpr h2
    constructor
    · intro h
      exact ⟨fun _ => Nat.odd_iff.mpr h, fun _ => hEven⟩
    · intro hiff
      exact Nat.odd_iff.mp (hiff.mp hEven)
  · rw [if_neg h2]
    simp only [decide_eq_true_eq]
    have hnotEven : ¬ Even ((Config.grid : Int) - indexRow (e : Int)) :=
      fun hc => h2 (Int.even_iff.mp hc)
    constructor
    · intro h
      have hnotOdd : ¬ Odd (inversionCount (labels.filterMap id)) :=
        Nat.even_iff_not_odd.mp (Nat.even_iff.mpr h)
      exact ⟨fun hEv => absurd hEv hnotEven, fun hOdd => absurd hOdd hnotOdd⟩
    · intro hiff
      by_contra hne
      have h1 : inversionCount (labels.filterMap id) % 2 = 1 := by omega
      exact hnotEven (hiff.mpr (Nat.odd_iff.mpr h1))

/-- Claim C3 witness: the solved arrangement, whose empty row from the
bottom is 1 (odd) and whose inversion count is 0 (even), is classified
solvable. -/
theorem C3_witness :
    (solvedTiles.length = Config.tileCount ∧ 15 < Config.tileCount ∧
      solvedTiles.getD 15 none = none ∧
      (∀ k, k < Config.tileCount → k ≠ 15 → solvedTiles.getD k none ≠ none) ∧
      (solvedTiles.filterMap id).Nodup ∧
      (∀ v ∈ solvedTiles.filterMap id, 0 < v)) ∧
    (isSolvable solvedTiles = true ↔
      (Even ((Config.grid : Int) - indexRow ((15 : Nat) : Int)) ↔
        Odd (inversionCount (solvedTiles.filterMap id)))) :=
  ⟨⟨by decide, by decide, by decide, by decide, by decide, by decide⟩,
    C3_solvable_parity_rule solvedTiles 15 (by decide) (by decide) (by decide)
      (by decide) (by decide) (by decide)⟩

/-! Checked variants: every raw vector access goes through the optional
index operator and any out-of-range access aborts the computation, so
that in-bounds execution of the embedded source is a theorem rather than
an assumption. -/

/-- Checked loop of isSolved: like solvedCheck, but each read fails if
out of range, with the early exit of the source loop (line 44). -/
def solvedCheckC (tiles : List Label) : Nat → Nat → Option Bool
  | _, 0 => (tiles[Config.tileCount - 1]?).map (fun t => decide (t = none))
  | i, k + 1 =>
      match tiles[i]? with
      | none => none
      | some t =>
          if t = some (i + 1) then solvedCheckC tiles (i + 1) k else some false

/-- Checked isSolved. -/
def isSolvedC (tiles : List Label) : Option Bool :=
  solvedCheckC tiles 0 (Config.tileCount - 1)

/-- Checked isSolvable: every loop iteration reads labels[i] through the
optional index operator. -/
def isSolvableC (labels : List Label) : Option Bool := do
  let reads ← (List.range Config.tileCount).mapM
    (fun i => (labels[i]?).map (fun t => (i, t)))
  pure (solvableVerdict (reads.filterMap (fun p => p.2))
    (reads.foldl (fun acc p =>
      if p.2 = none then (Config.grid : Int) - indexRow (p.1 : Int) else acc) 0))

/-- Checked shuffledSolvable loop: the loop body evaluates the checked
predicates on each draw. -/
def shuffledSolvableLoopC : List (List Label) → Except Unit (Option (List Label))
  | [] => Except.ok none
  | d :: rest =>
      match isSolvableC d, isSolvedC d with
      | some sv, some sd =>
          if sv = true ∧ sd = false then Except.ok (some d)
          else shuffledSolvableLoopC rest
      | _, _ => Except.error ()

/-- Checked action step: the Move swap reads both cells through the
optional index operator before writing them. -/
def applyActionC (draws : List (List Label)) (pick : Nat) (s : State) :
    Action → Except Unit (Option (State × List Effect))
  | Action.Start =>
      Except.ok (some (s, if s.startTime.isNone then [Effect.StartTimer] else []))
  | Action.Shuffle => do
      let r ← shuffledSolvableLoopC draws
      Except.ok (r.map (fun l => ({ s with tiles := l }, [])))
  | Action.Move index =>
      if findEmpty s.tiles ≠ -1 ∧ 0 ≤ index ∧ index < (s.tiles.length : Int) ∧
          adjacent index (findEmpty s.tiles) = true then
        match s.tiles[index.toNat]?, s.tiles[(findEmpty s.tiles).toNat]? with
        | some a, some b =>
            Except.ok (some ({ s with tiles :=
              (s.tiles.set index.toNat b).set (findEmpty s.tiles).toNat a }, []))
        | _, _ => Except.error ()
      else Except.ok (some (s, []))
  | Action.Restart => do
      let r ← shuffledSolvableLoopC draws
      Except.ok (r.map (fun l =>
        ({ s with tiles := l, startTime := none, isEnd := false },
         [Effect.StartTimer])))
  | Action.SetStartTime t =>
      Except.ok (some ({ s with startTime := some t }, []))
  | Action.NearWinShuffle =>
      Except.ok (some ({ s with tiles := shuffledNearWin pick }, []))

/-- Checked reducer: the checked action step followed by the checked
solved test of line 174. -/
def reducerC (draws : List (List Label)) (pick : Nat) (s : State)
    (a : Action) : Except Unit (Option (State × List Effect)) := do
  let r ← applyActionC draws pick s a
  match r with
  | none => Except.ok none
  | some p =>
      match isSolvedC p.1.tiles with
      | none => Except.error ()
      | some solved =>
          Except.ok (some
            ({ tiles := p.1.tiles, isEnd := solved,
               startTime := if solved = true then none else p.1.startTime },
             p.2))

lemma solvedCheckC_eq (tiles : List Label)
    (hlen : tiles.length = Config.tileCount) :
    ∀ (k i : Nat), i + k ≤ Config.tileCount - 1 →
      solvedCheckC tiles i k = some (solvedCheck tiles i k) := by
  intro k
  induction k with
  | zero =>
      intro i _
      have h15 : Config.tileCount - 1 < tiles.length := by rw [hlen]; decide
      unfold solvedCheckC solvedCheck
      rw [List.getElem?_eq_getElem h15, Option.map_some',
        List.getD_eq_getElem tiles none h15]
  | succ k ih =>
      intro i hi
      have hilt : i < tiles.length := by rw [hlen]; omega
      unfold solvedCheckC solvedCheck
      rw [List.getElem?_eq_getElem hilt, List.getD_eq_getElem tiles none hilt]
      have hred : (match some tiles[i] with
          | none => none
          | some t => if t = some (i + 1) then solvedCheckC tiles (i + 1) k
              else some false) =
          (if tiles[i] = some (i + 1) then solvedCheckC tiles (i + 1) k
            else some false) := rfl
      rw [hred]
      by_cases ht : tiles[i] = some (i + 1)
      · rw [if_pos ht, ih (i + 1) (by omega), decide_eq_true ht]
        rw [Bool.true_and]
      · rw [if_neg ht, decide_eq_false ht, Bool.false_and]

lemma isSolvedC_eq (tiles : List Label)
    (hlen : tiles.length = Config.tileCount) :
    isSolvedC tiles = some (isSolved tiles) :=
  solvedCheckC_eq tiles hlen (Config.tileCount - 1) 0 (by omega)

lemma mapM_reads (labels : List Label) :
    ∀ (li : List Nat), (∀ i ∈ li, i < labels.length) →
      li.mapM (fun i => (labels[i]?).map (fun t => (i, t))) =
        some (li.map (fun i => (i, labels.getD i none))) := by
  intro li
  induction li with
  | nil => intro _; rfl
  | cons x xs ih =>
      intro hmem
      have hx : x < labels.length := hmem x (List.mem_cons_self x xs)
      rw [List.mapM_cons, List.getElem?_eq_getElem hx, Option.map_some',
        ih (fun i hi => hmem i (List.mem_cons_of_mem x hi)),
        List.map_cons, List.getD_eq_getElem labels none hx]
      rfl

lemma isSolvableC_eq (labels : List Label)
    (hlen : labels.length = Config.tileCount) :
    isSolvableC labels = some (isSolvable labels) := by
  unfold isSolvableC
  rw [mapM_reads labels (List.range Config.tileCount)
    (fun i hi => by rw [hlen]; exact List.mem_range.mp hi)]
  rfl

lemma shuffledSolvableLoopC_eq :
    ∀ (draws : List (List Label)),
      (∀ d ∈ draws, d.length = Config.tileCount) →
      shuffledSolvableLoopC draws = Except.ok (shuffledSolvableLoop draws) := by
  intro draws
  induction draws with
  | nil => intro _; rfl
  | cons d rest ih =>
      intro hd
      unfold shuffledSolvableLoopC shuffledSolvableLoop
      rw [isSolvableC_eq d (hd d (List.mem_cons_self d rest)),
        isSolvedC_eq d (hd d (List.mem_cons_self d rest))]
      have hred : (match some (isSolvable d), some (isSolved d) with
          | some sv, some sd =>
              if sv = true ∧ sd = false then Except.ok (some d)
              else shuffledSolvableLoopC rest
          | _, _ => Except.error ()) =
          (if isSolvable d = true ∧ isSolved d = false then Except.ok (some d)
            else shuffledSolvableLoopC rest) := rfl
      rw [hred]
      by_cases hc : isSolvable d = true ∧ isSolved d = false
      · rw [if_pos hc, if_pos hc]
      · rw [if_neg hc, if_neg hc]
        exact ih (fun x hx => hd x (List.mem_cons_of_mem d hx))

/-- Unfolding equation of applyActionC on Move. -/
lemma applyActionC_move (draws : List (List Label)) (pick : Nat) (s : State)
    (index : Int) :
    applyActionC draws pick s (Action.Move index) =
      (if findEmpty s.tiles ≠ -1 ∧ 0 ≤ index ∧
          index < (s.tiles.length : Int) ∧
          adjacent index (findEmpty s.tiles) = true then
        match s.tiles[index.toNat]?, s.tiles[(findEmpty s.tiles).toNat]? with
        | some a, some b =>
            Except.ok (some ({ s with tiles :=
              (s.tiles.set index.toNat b).set (findEmpty s.tiles).toNat a }, []))
        | _, _ => Except.error ()
      else Except.ok (some (s, []))) := rfl

lemma applyActionC_eq (draws : List (List Label)) (pick : Nat) (s : State)
    (a : Action)
    (hdraws : ∀ d ∈ draws, d.length = Config.tileCount) :
    applyActionC draws pick s a = Except.ok (applyAction draws pick s a) := by
  cases a with
  | Start => rfl
  | Shuffle =>
      unfold applyActionC
      rw [shuffledSolvableLoopC_eq draws hdraws]
      rfl
  | Move index =>
      rw [applyActionC_move, applyAction_move]
      by_cases hC : findEmpty s.tiles ≠ -1 ∧ 0 ≤ index ∧
          index < (s.tiles.length : Int) ∧
          adjacent index (findEmpty s.tiles) = true
      · rw [if_pos hC, if_pos hC]
        obtain ⟨hne, hge, hlt, hadj⟩ := hC
        obtain ⟨k, hk⟩ : ∃ k, findEmptyN s.tiles = some k := by
          cases hfn : findEmptyN s.tiles with
          | some k => exact ⟨k, rfl⟩
          | none => exact absurd (by unfold findEmpty; rw [hfn]) hne
        obtain ⟨hklt, -⟩ := findEmptyN_some hk
        have htn : (findEmpty s.tiles).toNat = k := by
          unfold findEmpty; rw [hk, Int.toNat_natCast]
        have hidx : index.toNat < s.tiles.length := by omega
        have hetn : (findEmpty s.tiles).toNat < s.tiles.length := by
          rw [htn]; exact hklt
        rw [List.getElem?_eq_getElem hidx, List.getElem?_eq_getElem hetn]
        unfold swapTiles
        rw [List.getD_eq_getElem s.tiles none hidx,
          List.getD_eq_getElem s.tiles none hetn]
      · rw [if_neg hC, if_neg hC]
  | Restart =>
      unfold applyActionC
      rw [shuffledSolvableLoopC_eq draws hdraws]
      rfl
  | SetStartTime t => rfl
  | NearWinShuffle => rfl

lemma applyAction_tiles_length (draws : List (List Label)) (pick : Nat)
    (s : State) (a : Action) (p : State × List Effect)
    (hslen : s.tiles.length = Config.tileCount)
    (hdraws : ∀ d ∈ draws, d.length = Config.tileCount)
    (hp : applyAction draws pick s a = some p) :
    p.1.tiles.length = Config.tileCount := by
  cases a with
  | Start =>
      rw [applyAction_start] at hp
      injection hp with hp
      subst hp
      exact hslen
  | Shuffle =>
      rw [applyAction_shuffle] at hp
      obtain ⟨l, hl, heq⟩ := Option.map_eq_some'.mp hp
      subst heq
      exact hdraws l (shuffledSolvableLoop_mem hl)
  | Move index =>
      rw [applyAction_move] at hp
      by_cases hC : findEmpty s.tiles ≠ -1 ∧ 0 ≤ index ∧
          index < (s.tiles.length : Int) ∧
          adjacent index (findEmpty s.tiles) = true
      · rw [if_pos hC] at hp
        injection hp with hp
        subst hp
        show (swapTiles s.tiles index.toNat (findEmpty s.tiles).toNat).length =
          Config.tileCount
        rw [length_swapTiles]
        exact hslen
      · rw [if_neg hC] at hp
        injection hp with hp
        subst hp
        exact hslen
  | Restart =>
      rw [applyAction_restart] at hp
      obtain ⟨l, hl, heq⟩ := Option.map_eq_some'.mp hp
      subst heq
      exact hdraws l (shuffledSolvableLoop_mem hl)
  | SetStartTime t =>
      rw [applyAction_setStartTime] at hp
      injection hp with hp
      subst hp
      exact hslen
  | NearWinShuffle =>
      rw [applyAction_nearWin] at hp
      injection hp with hp
      subst hp
      show (shuffledNearWin pick).length = Config.tileCount
      rcases shuffledNearWin_cases pick with hc | hc <;> rw [hc] <;> decide

lemma reducerC_eq (draws : List (List Label)) (pick : Nat) (s : State)
    (a : Action)
    (hslen : s.tiles.length = Config.tileCount)
    (hdraws : ∀ d ∈ draws, d.length = Config.tileCount) :
    reducerC draws pick s a = Except.ok (reducer draws pick s a) := by
  have happC := applyActionC_eq draws pick s a hdraws
  cases happ : applyAction draws pick s a with
  | none =>
      rw [happ] at happC
      calc reducerC draws pick s a = Except.ok none := by
            unfold reducerC
            rw [happC]
            rfl
        _ = Except.ok (reducer draws pick s a) := by
            unfold reducer
            rw [happ]
            rfl
  | some p =>
      rw [happ] at happC
      have hplen := applyAction_tiles_length draws pick s a p hslen hdraws happ
      have hsolved := isSolvedC_eq p.1.tiles hplen
      calc reducerC draws pick s a
          = (match isSolvedC p.1.tiles with
            | none => Except.error ()
            | some solved =>
                Except.ok (some
                  ({ tiles := p.1.tiles, isEnd := solved,
                     startTime := if solved = true then none
                       else p.1.startTime },
                   p.2))) := by
            unfold reducerC
            rw [happC]
            rfl
        _ = Except.ok (reducer draws pick s a) := by
            rw [hsolved]
            unfold reducer
            rw [happ, Option.map_some']

/-- Claim C10: under the tileCount length precondition (with shuffle
draws of the same length, as std::shuffle produces), evaluating
isSolved, isSolvable and the reducer on any action performs only
in-bounds tile accesses: the checked variants, which abort on any
out-of-range access, agree with the unchecked semantics, so the
out-of-bounds branch is unreachable. -/
theorem C10_accesses_in_bounds (tiles : List Label)
    (draws : List (List Label)) (pick : Nat) (s : State) (a : Action)
    (hlen : tiles.length = Config.tileCount)
    (hslen : s.tiles.length = Config.tileCount)
    (hdraws : ∀ d ∈ draws, d.length = Config.tileCount) :
    isSolvedC tiles = some (isSolved tiles) ∧
    isSolvableC tiles = some (isSolvable tiles) ∧
    reducerC draws pick s a = Except.ok (reducer draws pick s a) :=
  ⟨isSolvedC_eq tiles hlen, isSolvableC_eq tiles hlen,
    reducerC_eq draws pick s a hslen hdraws⟩

/-- Claim C10 witness: the solved board and a Move action. -/
theorem C10_witness :
    (solvedTiles.length = Config.tileCount ∧
      (⟨solvedTiles, false, none⟩ : State).tiles.length = Config.tileCount ∧
      (∀ d ∈ ([] : List (List Label)), d.length = Config.tileCount)) ∧
    (isSolvedC solvedTiles = some (isSolved solvedTiles) ∧
      isSolvableC solvedTiles = some (isSolvable solvedTiles) ∧
      reducerC [] 0 ⟨solvedTiles, false, none⟩ (Action.Move 14) =
        Except.ok (reducer [] 0 ⟨solvedTiles, false, none⟩ (Action.Move 14))) :=
  ⟨⟨by decide, by decide, by simp⟩,
    C10_accesses_in_bounds solvedTiles [] 0 ⟨solvedTiles, false, none⟩
      (Action.Move 14) (by decide) (by decide) (by simp)⟩

end FifteenPuzzle
